import Mathlib

/-!
Shallow embedding of the command-routing data model of the `fred` Redis client
(`src/types/args.rs`), together with spec-modelled pieces (slot hashing, error
taxonomy, the router's multi-key slot check) whose defining code lives outside
the included sources.  Byte strings are modelled as `List Nat` (one entry per
byte), machine integers as `Nat`/`Int` with explicit wrapping where the Rust
code wraps, and fallible conversions as `Except`.
-/

namespace Fred

/-- UTF-8 bytes of a Lean string, modelling the bytes of a Rust `String`/`Str`. -/
def strBytes (s : String) : List Nat :=
  s.toUTF8.toList.map (fun b => b.toNat)

/-- Validating UTF-8 decode, modelling `str::from_utf8(..).ok()`. -/
def bytesToStr? (l : List Nat) : Option String :=
  String.fromUTF8? ⟨(l.map (fun n => UInt8.ofNat n)).toArray⟩

/-- Error taxonomy.  Modelled from the spec: §7 lists the error kinds
(`Io`, `Protocol`, `Redirect`, `ClusterUnavailable`, `Timeout`, `Canceled`,
`InvalidArgument`, `Auth`); `src/types/args.rs` additionally references
`RedisErrorKind::Unknown` and `RedisErrorKind::Parse` from the crate's
`error` module, which is not among the included sources. -/
inductive RedisErrorKind where
  | Io
  | Protocol
  | Redirect
  | ClusterUnavailable
  | Timeout
  | Canceled
  | InvalidArgument
  | Auth
  | Unknown
  | Parse
deriving DecidableEq, Repr

/-- Identity of one server endpoint (spec §3: host, port). -/
structure Server where
  host : String
  port : Nat
deriving DecidableEq, Repr

/-- A key in Redis (`RedisKey` in `src/types/args.rs`): a byte sequence. -/
structure RedisKey where
  key : List Nat
deriving DecidableEq, Repr

/-- One step of the CRC16-XMODEM update used by Redis cluster key hashing
(polynomial 0x1021, applied bit by bit to a 16-bit register). -/
def crc16Step (crc : Nat) : Nat :=
  if crc % 65536 ≥ 32768 then ((crc % 65536) * 2) % 65536 ^^^ 4129
  else ((crc % 65536) * 2) % 65536

/-- Fold one input byte into the CRC16 register. -/
def crc16Byte (crc b : Nat) : Nat :=
  let crc := (crc ^^^ ((b % 256) * 256)) % 65536
  crc16Step (crc16Step (crc16Step (crc16Step (crc16Step (crc16Step (crc16Step (crc16Step crc)))))))

/-- CRC16-XMODEM of a byte sequence (initial register 0). -/
def crc16 (key : List Nat) : Nat :=
  key.foldl crc16Byte 0

/-- Modelled from the spec: the explicit hash tag of a key — "a substring of a
key used in place of the whole key for slot hashing" (spec glossary), i.e. the
non-empty substring between the first `{` (byte 123) and the first following
`}` (byte 125), as implemented by `redis_protocol::redis_keyslot`, which is a
dependency of this repository and not among the included sources. -/
def hashTagOf (key : List Nat) : Option (List Nat) :=
  match key.dropWhile (fun b => b ≠ 123) with
  | [] => none
  | _ :: afterBrace =>
    let tag := afterBrace.takeWhile (fun b => b ≠ 125)
    if tag.length < afterBrace.length ∧ tag ≠ [] then some tag else none

/-- Modelled from the spec: the cluster hash-slot of a key — CRC16 of the
explicit hash tag when one is present, of the whole key otherwise, reduced
into "the fixed slot space (16384 slots)" (spec §3).  The concrete function
`redis_protocol::redis_keyslot` lives in a dependency crate. -/
def redis_keyslot (key : List Nat) : Nat :=
  crc16 (match hashTagOf key with | some tag => tag | none => key) % 16384

/-- `RedisKey::cluster_hash` (`src/types/args.rs`): hash the key to its
cluster hash slot. -/
def RedisKey.cluster_hash (k : RedisKey) : Nat :=
  redis_keyslot k.key

/-- Cluster slot-ownership state: slot → owning server, modelled as a finite
association list (the `SlotMap` of spec §3; the concrete `ClusterRouting`
structure is not among the included sources). -/
structure ClusterState where
  servers : List (Nat × Server)
deriving DecidableEq, Repr

/-- Look up the server owning a hash slot. -/
def ClusterState.get_server (s : ClusterState) (slot : Nat) : Option Server :=
  (s.servers.find? (fun p => p.1 == slot)).map (fun p => p.2)

/-- Abstract client state, modelling the `ClientLike` capabilities used by
`RedisKey::cluster_owner`: whether the deployment is clustered, and the
cluster state when known (`with_cluster_state` fails when it is unknown). -/
structure ClientModel where
  is_clustered : Bool
  cluster_state : Option ClusterState
deriving DecidableEq, Repr

/-- `RedisKey::cluster_owner` (`src/types/args.rs`): the `host:port` of the
cluster node that owns the key if the client is clustered and the cluster
state is known, `None` otherwise. -/
def RedisKey.cluster_owner (k : RedisKey) (client : ClientModel) : Option Server :=
  if client.is_clustered then
    match client.cluster_state with
    | some state => state.get_server k.cluster_hash
    | none => none
  else
    none

/-- Modelled from the spec: the clustered Router's slot check for a multi-key
command — "Multi-key commands whose keys hash to different slots must fail
fast with a routing error rather than silently choosing one key's slot"
(spec §4.1), with error kind `InvalidArgument` ("routing conflict across
multi-key command", spec §7).  The Router itself is not among the included
sources.  On success the common slot is returned as the routing target. -/
def route_multi_key (keys : List RedisKey) : Except RedisErrorKind Nat :=
  match keys with
  | [] => .error .InvalidArgument
  | k :: rest =>
    let slot := k.cluster_hash
    if rest.all (fun k2 => k2.cluster_hash == slot) then .ok slot
    else .error .InvalidArgument

/-- Model of a Rust `f64`: its IEEE-754 binary64 bit pattern (`bits`, the
value of `f64::to_bits`, taken `< 2^64`) together with its decimal rendering
by Rust's `Display`/`to_string` (`render`), carried as data because the
rendering algorithm (shortest round-trip formatting) is outside the embedded
code. -/
structure F64 where
  bits : Nat
  render : String
deriving DecidableEq, Repr

/-- Whether the bit pattern denotes an IEEE-754 NaN (exponent all ones,
non-zero mantissa). -/
def F64.isNaN (a : F64) : Bool :=
  (a.bits / 2 ^ 52) % 2 ^ 11 == 2 ^ 11 - 1 && a.bits % 2 ^ 52 != 0

/-- Whether the bit pattern denotes a zero (of either sign). -/
def F64.isZero (a : F64) : Bool :=
  a.bits % 2 ^ 63 == 0

/-- IEEE-754 `==` on two doubles: the two zeros are equal, NaN is equal to
nothing (itself included), any other value is equal exactly to its own bit
pattern. -/
def F64.ieeeEq (a b : F64) : Bool :=
  (a.isZero && b.isZero) || (a.bits % 2 ^ 64 == b.bits % 2 ^ 64 && !a.isNaN)

/-- Reinterpret a `u64` bit pattern as an `i64` (two's complement). -/
def u64_to_i64 (n : Nat) : Int :=
  if n % 2 ^ 64 < 2 ^ 63 then ((n % 2 ^ 64 : Nat) : Int) else ((n % 2 ^ 64 : Nat) : Int) - 2 ^ 64

/-- Wrap an integer into the `i64` range (two's complement wrapping, as in
Rust `as i64` casts and `i64::wrapping_sub`). -/
def i64_wrap (d : Int) : Int :=
  (d + 2 ^ 63) % 2 ^ 64 - 2 ^ 63

/-- `i64::saturating_abs`: absolute value, with `i64::MIN` saturating to
`i64::MAX`. -/
def satAbs (d : Int) : Int :=
  if d = -(2 ^ 63) then 2 ^ 63 - 1 else (d.natAbs : Int)

/-- `float_cmp::Ulps::ulps` for `f64`: the wrapping difference of the two bit
patterns reinterpreted as `i64`. -/
def F64.ulpsDiff (a b : F64) : Int :=
  i64_wrap (u64_to_i64 a.bits - u64_to_i64 b.bits)

/-- `float_cmp::approx_eq!(f64, a, b, ulps = 2)`: exact IEEE equality, or a
bit-pattern distance of at most 2 ulps.  (The `epsilon` branch of the margin
is `0.0` here and is subsumed by exact equality: for finite doubles
`(a - b).abs() <= 0.0` holds exactly when `a == b`.) -/
def f64_approx_eq (a b : F64) : Bool :=
  a.ieeeEq b || decide (satAbs (a.ulpsDiff b) ≤ 2)

/-- The protocol literal for the provisional queued acknowledgement inside a
transaction.  Modelled from the spec: "each acknowledged with a provisional
'queued' status rather than its real result" (spec §6); the constant `QUEUED`
itself is defined in the crate's `types` module, not among the included
sources. -/
def QUEUED : String := "QUEUED"

/-- The RESP2 null frame constant `redis_protocol::resp2::types::NULL`
(`"$-1\r\n"`), hashed by the `Null` arm of `Hash for RedisValue`; the
constant lives in a dependency crate. -/
def NULL_FRAME : String := "$-1\r\n"

/-- The UTF-8 string type of the value model (`bytes_utils::Str`). -/
abbrev Str : Type := String

/-- A value used in a Redis command (`RedisValue` in `src/types/args.rs`).
`Map` payloads model the `HashMap` inside `RedisMap` as an association list
with the keys pairwise distinct. -/
inductive RedisValue where
  /-- A boolean value. -/
  | Boolean : Bool → RedisValue
  /-- An integer value (`i64`). -/
  | Integer : Int → RedisValue
  /-- A double floating point number. -/
  | Double : F64 → RedisValue
  /-- A UTF-8 string value (`Str`). -/
  | String : String → RedisValue
  /-- A byte array value. -/
  | Bytes : List Nat → RedisValue
  /-- A `nil` value. -/
  | Null : RedisValue
  /-- The special value acknowledging a command queued inside a `MULTI` block. -/
  | Queued : RedisValue
  /-- A map of key/value pairs. -/
  | Map : List (RedisKey × RedisValue) → RedisValue
  /-- An ordered list of values. -/
  | Array : List RedisValue → RedisValue

/-- `RedisValue::is_queued`: check if the value is a `QUEUED` response. -/
def RedisValue.is_queued : RedisValue → Bool
  | .Queued => true
  | _ => false

/-- `RedisValue::into_string` (`src/types/args.rs`).  The `dnt` flag models
the `default-nil-types` cargo feature. -/
def RedisValue.into_string (dnt : Bool) : RedisValue → Option Str
  | .Boolean b => some (if b then "true" else "false")
  | .Double f => some f.render
  | .String s => some s
  | .Bytes b => bytesToStr? b
  | .Integer i => some (toString i)
  | .Queued => some QUEUED
  | .Array inner =>
    match inner with
    | [v] => v.into_string dnt
    | _ => none
  | .Null => if dnt then some "" else none
  | .Map _ => none

/-- `RedisValue::into_bytes_str` (`src/types/args.rs`): the inner data as a
`Str` (`Str::from_inner` validates UTF-8 without copying). -/
def RedisValue.into_bytes_str (dnt : Bool) : RedisValue → Option Str
  | .Boolean b => some (if b then "true" else "false")
  | .Double f => some f.render
  | .String s => some s
  | .Bytes b => bytesToStr? b
  | .Integer i => some (toString i)
  | .Queued => some QUEUED
  | .Array inner =>
    match inner with
    | [v] => v.into_bytes_str dnt
    | _ => none
  | .Null => if dnt then some "" else none
  | .Map _ => none

/-- `RedisValue::as_string` (`src/types/args.rs`): the inner `String` if the
value is a string or scalar value (no single-element-array unwrapping). -/
def RedisValue.as_string (dnt : Bool) : RedisValue → Option Str
  | .Boolean b => some (if b then "true" else "false")
  | .Double f => some f.render
  | .String s => some s
  | .Bytes b => bytesToStr? b
  | .Integer i => some (toString i)
  | .Queued => some QUEUED
  | .Null => if dnt then some "" else none
  | _ => none

/-- `RedisValue::as_str` (`src/types/args.rs`): the inner value as a string
slice (`Cow<str>` modelled as `String`). -/
def RedisValue.as_str (dnt : Bool) : RedisValue → Option Str
  | .Double f => some f.render
  | .Boolean b => some (if b then "true" else "false")
  | .String s => some s
  | .Integer i => some (toString i)
  | .Queued => some QUEUED
  | .Bytes b => bytesToStr? b
  | .Null => if dnt then some "" else none
  | _ => none

/-- `RedisValue::as_bytes` (`src/types/args.rs`): the inner value as an array
of bytes, if possible. -/
def RedisValue.as_bytes : RedisValue → Option (List Nat)
  | .String s => some (strBytes s)
  | .Bytes b => some b
  | .Queued => some (strBytes QUEUED)
  | _ => none

/-- `impl TryFrom<RedisValue> for RedisKey` (`src/types/args.rs`): scalar
values convert to their string/byte form, aggregate and nil values are
rejected with `RedisErrorKind::InvalidArgument`. -/
def redisKey_try_from : RedisValue → Except RedisErrorKind RedisKey
  | .String s => .ok ⟨strBytes s⟩
  | .Integer i => .ok ⟨strBytes (toString i)⟩
  | .Double f => .ok ⟨strBytes f.render⟩
  | .Bytes b => .ok ⟨b⟩
  | .Boolean b => .ok ⟨strBytes (if b then "true" else "false")⟩
  | .Queued => .ok ⟨strBytes QUEUED⟩
  | _ => .error .InvalidArgument

/-- Spec-side definition for the key-conversion claim: the canonical
string/byte form of a value — its bytes for strings and byte arrays, the
decimal rendering for integers and doubles, `"true"`/`"false"` for booleans,
the `QUEUED` literal for the queued marker, and nothing for aggregate or nil
values. -/
def canonicalKeyBytes : RedisValue → Option (List Nat)
  | .String s => some (strBytes s)
  | .Integer i => some (strBytes (toString i))
  | .Double f => some (strBytes f.render)
  | .Bytes b => some b
  | .Boolean b => some (strBytes (if b then "true" else "false"))
  | .Queued => some (strBytes QUEUED)
  | .Array _ => none
  | .Map _ => none
  | .Null => none

/-- `HashMap::get` on the association-list model of `RedisMap`. -/
def mapGet (k : RedisKey) : List (RedisKey × RedisValue) → Option RedisValue
  | [] => none
  | p :: rest => if p.1 = k then some p.2 else mapGet k rest

/-- `HashMap::insert` on the association-list model of `RedisMap`: replace
the value of an existing key, otherwise add the pair. -/
def mapInsert (k : RedisKey) (v : RedisValue) : List (RedisKey × RedisValue) → List (RedisKey × RedisValue)
  | [] => [(k, v)]
  | p :: rest => if p.1 = k then (k, v) :: rest else p :: mapInsert k v rest

mutual

/-- `impl PartialEq for RedisValue` (`src/types/args.rs`): structural
equality, with `Double` payloads compared by
`approx_eq!(f64, s, o, ulps = 2)` and `Map` payloads compared as `HashMap`s
(equal size and every pair of one present in the other with an equal
value). -/
def rvEq : RedisValue → RedisValue → Bool
  | .Boolean s, .Boolean o => s == o
  | .Integer s, .Integer o => s == o
  | .Double s, .Double o => f64_approx_eq s o
  | .String s, .String o => s == o
  | .Bytes s, .Bytes o => s == o
  | .Null, .Null => true
  | .Queued, .Queued => true
  | .Map s, .Map o => s.length == o.length && rvMapSub s o
  | .Array s, .Array o => rvListEq s o
  | _, _ => false
termination_by a _ => sizeOf a

/-- `Vec<RedisValue>` equality: same length, pairwise `rvEq`. -/
def rvListEq : List RedisValue → List RedisValue → Bool
  | [], [] => true
  | a :: as', b :: bs' => rvEq a b && rvListEq as' bs'
  | _, _ => false
termination_by l _ => sizeOf l

/-- `HashMap` equality, membership half: every pair of the first map has a
matching key in the second whose value is `rvEq`-equal. -/
def rvMapSub : List (RedisKey × RedisValue) → List (RedisKey × RedisValue) → Bool
  | [], _ => true
  | (k, v) :: rest, o =>
    (match mapGet k o with
     | some v2 => rvEq v v2
     | none => false) && rvMapSub rest o
termination_by l _ => sizeOf l

end

/-- Big-endian byte decomposition of a 64-bit word (`f64::to_be_bytes`). -/
def beBytes8 (n : Nat) : List Nat :=
  [n / 2 ^ 56 % 256, n / 2 ^ 48 % 256, n / 2 ^ 40 % 256, n / 2 ^ 32 % 256,
   n / 2 ^ 24 % 256, n / 2 ^ 16 % 256, n / 2 ^ 8 % 256, n % 256]

/-- Little-endian byte decomposition of a 64-bit word (native-endian `i64`
hashing on a little-endian machine). -/
def leBytes8 (n : Nat) : List Nat :=
  [n % 256, n / 2 ^ 8 % 256, n / 2 ^ 16 % 256, n / 2 ^ 24 % 256,
   n / 2 ^ 32 % 256, n / 2 ^ 40 % 256, n / 2 ^ 48 % 256, n / 2 ^ 56 % 256]

/-- Two's complement `u64` bit pattern of an `i64` value. -/
def toU64 (i : Int) : Nat :=
  ((i % 2 ^ 64 + 2 ^ 64) % 2 ^ 64).toNat

mutual

/-- `impl Hash for RedisValue` (`src/types/args.rs`), modelled as the byte
stream the implementation feeds to the `Hasher`: a kind-prefix byte, then the
payload's own `Hash` writes (`str` writes its bytes plus a `0xFF` terminator,
slices write a length prefix then their bytes, `f64::to_be_bytes` writes the
big-endian bit pattern, arrays write each element in order with no length).
Two values hash equally for every `Hasher` exactly when these streams are
equal.  `Map` values panic (`"Cannot hash aggregate value."`), modelled as
`none`. -/
def hashBytes : RedisValue → Option (List Nat)
  | .Boolean b => some (66 :: [if b then 1 else 0])
  | .Double f => some (100 :: beBytes8 f.bits)
  | .Integer d => some (105 :: leBytes8 (toU64 d))
  | .String s => some (115 :: (strBytes s ++ [255]))
  | .Bytes b => some (98 :: b.length :: b)
  | .Null => some (110 :: (strBytes NULL_FRAME ++ [255]))
  | .Queued => some (113 :: (strBytes QUEUED ++ [255]))
  | .Array arr => (hashList arr).map (fun l => 97 :: l)
  | .Map _ => none
termination_by v => sizeOf v

/-- Hash writes of `for value in arr { value.hash(state) }`, propagating the
panic of any aggregate element. -/
def hashList : List RedisValue → Option (List Nat)
  | [] => some []
  | v :: rest =>
    match hashBytes v, hashList rest with
    | some h, some t => some (h ++ t)
    | _, _ => none
termination_by l => sizeOf l

end

mutual

/-- Whether a value contains no `Double` payload outside of a `Map`
(`Map` values never hash, so their contents are irrelevant to hashing). -/
def doubleFree : RedisValue → Bool
  | .Double _ => false
  | .Array arr => doubleFreeList arr
  | _ => true
termination_by v => sizeOf v

/-- `doubleFree` on every element of a list. -/
def doubleFreeList : List RedisValue → Bool
  | [] => true
  | v :: rest => doubleFree v && doubleFreeList rest
termination_by l => sizeOf l

end

/-- The pair-consuming loop of `RedisValue::into_map` on an even-length
array: the Rust loop pops the value then the key from the *end* of the
vector and inserts, so it is applied here to the reversed element list. -/
def intoMapRev : List RedisValue → List (RedisKey × RedisValue) → Except RedisErrorKind (List (RedisKey × RedisValue))
  | v :: k :: rest, acc =>
    match redisKey_try_from k with
    | .ok key => intoMapRev rest (mapInsert key v acc)
    | .error e => .error e
  | _, acc => .ok acc

/-- `RedisValue::into_map` (`src/types/args.rs`): a `Map` is returned as is,
an even-length array is consumed pairwise from the end, an odd-length array
and all other shapes are rejected with `RedisErrorKind::Unknown` (`Null`
yields the empty map when the `default-nil-types` feature `dnt` is on). -/
def RedisValue.into_map (dnt : Bool) : RedisValue → Except RedisErrorKind (List (RedisKey × RedisValue))
  | .Map m => .ok m
  | .Array values =>
    if values.length % 2 ≠ 0 then .error .Unknown
    else intoMapRev values.reverse []
  | .Null => if dnt then .ok [] else .error .Unknown
  | _ => .error .Unknown

/-- Whether every even-indexed element of an array (the key of each pair)
converts to a `RedisKey`. -/
def pairKeysOk : List RedisValue → Bool
  | kv :: _ :: rest => (redisKey_try_from kv).isOk && pairKeysOk rest
  | _ => true

/-- The value of the earliest pair of the array whose key converts to the
given `RedisKey` (pairs read left to right as `[k0, v0, k1, v1, ...]`). -/
def listFirstAssoc (key : RedisKey) : List RedisValue → Option RedisValue
  | kv :: v :: rest =>
    match redisKey_try_from kv with
    | .ok k2 => if k2 = key then some v else listFirstAssoc key rest
    | .error _ => listFirstAssoc key rest
  | _ => none

/-- `i64::MAX`. -/
def I64_MAX : Int := 2 ^ 63 - 1

/-- `impl TryFrom<u64> for RedisValue` (`src/types/args.rs`): inputs `>=
i64::MAX` are rejected, smaller ones become `Integer` (the `as i64` cast is
value-preserving there). -/
def redisValue_tryFrom_u64 (d : Nat) : Except RedisErrorKind RedisValue :=
  if (d : Int) ≥ I64_MAX then .error .Unknown else .ok (.Integer (d : Int))

/-- `impl TryFrom<u128> for RedisValue` (`src/types/args.rs`). -/
def redisValue_tryFrom_u128 (d : Nat) : Except RedisErrorKind RedisValue :=
  if (d : Int) ≥ I64_MAX then .error .Unknown else .ok (.Integer (d : Int))

/-- `impl TryFrom<usize> for RedisValue` (`src/types/args.rs`), on a 64-bit
platform. -/
def redisValue_tryFrom_usize (d : Nat) : Except RedisErrorKind RedisValue :=
  if (d : Int) ≥ I64_MAX then .error .Unknown else .ok (.Integer (d : Int))

/-- `impl TryFrom<i128> for RedisValue` (`src/types/args.rs`): inputs `>=
i64::MAX` are rejected; all others pass through the wrapping `as i64`
cast. -/
def redisValue_tryFrom_i128 (d : Int) : Except RedisErrorKind RedisValue :=
  if d ≥ I64_MAX then .error .Unknown else .ok (.Integer (i64_wrap d))

/-- C1: two keys carrying the same explicit hash tag (the same substring
enclosed in braces) have the same `RedisKey::cluster_hash`, so both route to
the same slot and connection target. -/
theorem cluster_hash_same_for_same_hash_tag (k1 k2 : RedisKey) (t : List Nat)
    (h1 : hashTagOf k1.key = some t) (h2 : hashTagOf k2.key = some t) :
    k1.cluster_hash = k2.cluster_hash := by
  simp [RedisKey.cluster_hash, redis_keyslot, h1, h2]

/-- C1 witness: `\x7bu\x7da` and `b\x7bu\x7d` share the hash tag `u` and hash
to the same slot. -/
theorem cluster_hash_same_for_same_hash_tag_witness :
    hashTagOf [123, 117, 125, 97] = some [117] ∧
    hashTagOf [98, 123, 117, 125] = some [117] ∧
    RedisKey.cluster_hash ⟨[123, 117, 125, 97]⟩ = RedisKey.cluster_hash ⟨[98, 123, 117, 125]⟩ :=
  ⟨by decide, by decide,
    cluster_hash_same_for_same_hash_tag ⟨[123, 117, 125, 97]⟩ ⟨[98, 123, 117, 125]⟩ [117]
      (by decide) (by decide)⟩

/-- C2: every key hashes into the fixed slot space — `cluster_hash` is
strictly less than 16384. -/
theorem cluster_hash_lt_16384 (k : RedisKey) : k.cluster_hash < 16384 := by
  simp only [RedisKey.cluster_hash, redis_keyslot]
  exact Nat.mod_lt _ (by norm_num)

/-- C3: a multi-key command whose keys hash to different slots fails fast
with an `InvalidArgument` routing error; no key's slot is chosen as the
routing target. -/
theorem route_multi_key_conflict_fails (keys : List RedisKey) (k1 k2 : RedisKey)
    (h1 : k1 ∈ keys) (h2 : k2 ∈ keys)
    (hne : k1.cluster_hash ≠ k2.cluster_hash) :
    route_multi_key keys = .error .InvalidArgument := by
  cases keys with
  | nil => cases h1
  | cons k rest =>
    simp only [route_multi_key]
    split
    · next hall =>
      exfalso
      have hAll : ∀ x ∈ k :: rest, x.cluster_hash = k.cluster_hash := by
        intro x hx
        rcases List.mem_cons.mp hx with hx | hx
        · rw [hx]
        · simpa using (List.all_eq_true.mp hall) x hx
      exact hne ((hAll k1 h1).trans (hAll k2 h2).symm)
    · rfl

/-- C3 witness: keys `a` and `b` hash to different slots, and routing the
two-key command fails with `InvalidArgument`. -/
theorem route_multi_key_conflict_fails_witness :
    RedisKey.cluster_hash ⟨[97]⟩ ≠ RedisKey.cluster_hash ⟨[98]⟩ ∧
    route_multi_key [⟨[97]⟩, ⟨[98]⟩] = .error .InvalidArgument :=
  ⟨by decide,
    route_multi_key_conflict_fails [⟨[97]⟩, ⟨[98]⟩] ⟨[97]⟩ ⟨[98]⟩
      (by simp) (by simp) (by decide)⟩

/-- C5: the provisional queued acknowledgement is the distinct value
`RedisValue::Queued`: `is_queued` recognizes exactly it, and the string/byte
conversions `as_str`, `as_string`, `into_string`, `into_bytes_str` and
`as_bytes` all render it as the literal `QUEUED`. -/
theorem queued_is_distinct_literal :
    (∀ v : RedisValue, v.is_queued = true ↔ v = .Queued) ∧
    (∀ dnt : Bool,
      RedisValue.as_str dnt .Queued = some "QUEUED" ∧
      RedisValue.as_string dnt .Queued = some "QUEUED" ∧
      RedisValue.into_string dnt .Queued = some "QUEUED" ∧
      RedisValue.into_bytes_str dnt .Queued = some "QUEUED") ∧
    RedisValue.as_bytes .Queued = some (strBytes "QUEUED") := by
  refine ⟨fun v => ?_, fun dnt => ?_, ?_⟩
  · cases v <;> simp [RedisValue.is_queued]
  · refine ⟨?_, ?_, ?_, ?_⟩ <;>
      simp [RedisValue.as_str, RedisValue.as_string, RedisValue.into_string,
        RedisValue.into_bytes_str, QUEUED]
  · rfl

/-- C6: converting a `RedisValue` to a `RedisKey` fails with
`InvalidArgument` exactly on the malformed-key shapes (`Null`, `Array`,
`Map`), and every convertible value becomes the key holding its canonical
string/byte form. -/
theorem redis_key_try_from_canonical :
    ∀ v : RedisValue,
      (redisKey_try_from v =
        match canonicalKeyBytes v with
        | some bs => .ok ⟨bs⟩
        | none => .error .InvalidArgument) ∧
      (canonicalKeyBytes v = none ↔
        (v = .Null ∨ (∃ l, v = .Array l) ∨ (∃ m, v = .Map m))) := by
  intro v
  cases v <;> simp [redisKey_try_from, canonicalKeyBytes]

/-- C7: a client that is not clustered (centralized or sentinel deployment)
never reports a cluster owner for any key. -/
theorem cluster_owner_none_when_not_clustered (k : RedisKey) (c : ClientModel)
    (h : c.is_clustered = false) : k.cluster_owner c = none := by
  simp [RedisKey.cluster_owner, h]

/-- C7 witness: a concrete non-clustered client yields no owner for key `a`. -/
theorem cluster_owner_none_when_not_clustered_witness :
    RedisKey.cluster_owner ⟨[97]⟩ ⟨false, none⟩ = none :=
  cluster_owner_none_when_not_clustered ⟨[97]⟩ ⟨false, none⟩ rfl

/-- C10 counterexample: the `i128` input `i64::MIN - 1` is strictly below
`i64::MAX`, yet `TryFrom<i128>` does not return an `Integer` of the same
numeric value (the `as i64` cast wraps it to `i64::MAX`). -/
theorem tryFrom_i128_wraps_below_min :
    (-(2 ^ 63) - 1 : Int) < I64_MAX ∧
    redisValue_tryFrom_i128 (-(2 ^ 63) - 1) ≠ .ok (.Integer (-(2 ^ 63) - 1)) := by
  constructor
  · norm_num [I64_MAX]
  · intro h
    have hv : redisValue_tryFrom_i128 (-(2 ^ 63) - 1) = .ok (.Integer (2 ^ 63 - 1)) := by
      norm_num [redisValue_tryFrom_i128, I64_MAX, i64_wrap]
    rw [hv] at h
    simp only [Except.ok.injEq, RedisValue.Integer.injEq] at h
    omega

/-- C10 (amended): `TryFrom` for `u64`, `usize` and `u128` returns an
`Integer` of the same numeric value exactly when the input is strictly below
`i64::MAX`, and errors otherwise; `TryFrom<i128>` succeeds exactly when the
input is strictly below `i64::MAX`, and its result preserves the numeric
value only when the input is additionally at least `i64::MIN` — inputs below
`i64::MIN` succeed with a two's-complement-wrapped value. -/
theorem tryFrom_integer_bounds :
    (∀ d : Nat, redisValue_tryFrom_u64 d = .ok (.Integer d) ↔ (d : Int) < I64_MAX) ∧
    (∀ d : Nat, redisValue_tryFrom_usize d = .ok (.Integer d) ↔ (d : Int) < I64_MAX) ∧
    (∀ d : Nat, redisValue_tryFrom_u128 d = .ok (.Integer d) ↔ (d : Int) < I64_MAX) ∧
    (∀ d : Int, (redisValue_tryFrom_i128 d).isOk = true ↔ d < I64_MAX) ∧
    (∀ d : Int, -(2 ^ 63) ≤ d → d < I64_MAX →
      redisValue_tryFrom_i128 d = .ok (.Integer d)) := by
  have gen : ∀ d : Nat,
      (if (d : Int) ≥ I64_MAX then (Except.error .Unknown : Except RedisErrorKind RedisValue)
        else .ok (.Integer (d : Int))) = .ok (.Integer (d : Int)) ↔ (d : Int) < I64_MAX := by
    intro d
    by_cases hc : (d : Int) ≥ I64_MAX
    · simp only [if_pos hc]
      constructor
      · intro h; cases h
      · intro h; omega
    · simp only [if_neg hc]
      constructor
      · intro _; omega
      · intro _; trivial
  refine ⟨fun d => gen d, fun d => gen d, fun d => gen d, fun d => ?_, fun d h1 h2 => ?_⟩
  · by_cases hc : d ≥ I64_MAX
    · simp only [redisValue_tryFrom_i128, if_pos hc, Except.isOk, Except.toBool]
      constructor
      · intro h; cases h
      · intro h; omega
    · simp only [redisValue_tryFrom_i128, if_neg hc, Except.isOk, Except.toBool]
      constructor
      · intro _; omega
      · intro _; trivial
  · have hc : ¬ d ≥ I64_MAX := not_le.mpr h2
    simp only [redisValue_tryFrom_i128, if_neg hc, Except.ok.injEq, RedisValue.Integer.injEq,
      i64_wrap]
    have hmod : (d + 2 ^ 63) % 2 ^ 64 = d + 2 ^ 63 := by
      apply Int.emod_eq_of_lt
      · omega
      · simp only [I64_MAX] at h2; omega
    omega

/-- C10 amended witness: `TryFrom<u64>` at 7 yields `Integer 7`, and
`TryFrom<i128>` at `-7` yields `Integer (-7)`. -/
theorem tryFrom_integer_bounds_witness :
    redisValue_tryFrom_u64 7 = .ok (.Integer 7) ∧
    redisValue_tryFrom_i128 (-7) = .ok (.Integer (-7)) :=
  ⟨(tryFrom_integer_bounds.1 7).mpr (by norm_num [I64_MAX]),
    tryFrom_integer_bounds.2.2.2.2 (-7) (by norm_num) (by norm_num [I64_MAX])⟩

/-- Helper: membership in a double-free list gives a double-free element. -/
theorem doubleFreeList_mem {l : List RedisValue} {a : RedisValue}
    (hl : doubleFreeList l = true) (ha : a ∈ l) : doubleFree a = true := by
  induction l with
  | nil => cases ha
  | cons x xs ih =>
    simp only [doubleFreeList, Bool.and_eq_true] at hl
    rcases List.mem_cons.mp ha with h | h
    · rw [h]; exact hl.1
    · exact ih hl.2 h

/-- Helper: pairwise-equal double-free lists produce the same hash writes. -/
theorem hashList_congr (as bs : List RedisValue)
    (H : ∀ a ∈ as, ∀ b, doubleFree a = true → rvEq a b = true → hashBytes a = hashBytes b)
    (hfree : doubleFreeList as = true) (heq : rvListEq as bs = true) :
    hashList as = hashList bs := by
  induction as generalizing bs with
  | nil =>
    cases bs with
    | nil => rfl
    | cons b bs' => simp [rvListEq] at heq
  | cons a as' ih =>
    cases bs with
    | nil => simp [rvListEq] at heq
    | cons b bs' =>
      simp only [rvListEq, Bool.and_eq_true] at heq
      simp only [doubleFreeList, Bool.and_eq_true] at hfree
      have h1 : hashBytes a = hashBytes b := H a (by simp) b hfree.1 heq.1
      have h2 : hashList as' = hashList bs' :=
        ih bs' (fun x hx => H x (List.mem_cons_of_mem a hx)) hfree.2 heq.2
      simp [hashList, h1, h2]

/-- Helper: values equal under `rvEq` have equal hash writes, provided the
left value is double-free; by strong induction on size. -/
theorem hashEq_aux : ∀ (n : Nat) (a b : RedisValue), sizeOf a ≤ n →
    doubleFree a = true → rvEq a b = true → hashBytes a = hashBytes b := by
  intro n
  induction n with
  | zero =>
    intro a b hs _ _
    exfalso
    cases a <;> simp at hs
  | succ n ih =>
    intro a b hs hf he
    cases a with
    | Double f => simp [doubleFree] at hf
    | Boolean s => cases b <;> simp [rvEq] at he; rw [he]
    | Integer s => cases b <;> simp [rvEq] at he; rw [he]
    | String s => cases b <;> simp [rvEq] at he; rw [he]
    | Bytes s => cases b <;> simp [rvEq] at he; rw [he]
    | Null => cases b <;> simp [rvEq] at he; rfl
    | Queued => cases b <;> simp [rvEq] at he; rfl
    | Map s =>
      cases b <;> simp [rvEq] at he
      simp [hashBytes]
    | Array as0 =>
      cases b <;> simp [rvEq] at he
      next bs0 =>
      simp only [doubleFree] at hf
      have hl : hashList as0 = hashList bs0 := by
        refine hashList_congr as0 bs0 (fun x hx b' hfx hex => ih x b' ?_ hfx hex) hf he
        have h1 : sizeOf x < sizeOf as0 := List.sizeOf_lt_of_mem hx
        have h2 : sizeOf (RedisValue.Array as0) = 1 + sizeOf as0 := by simp
        omega
      simp [hashBytes, hl]

/-- C8 counterexample: the doubles with bit patterns `0x3FF0000000000000`
(1.0) and `0x3FF0000000000001` (the next float up) are equal under the
approximate `PartialEq`, yet their `Hash` writes differ, refuting
"equal values hash equally" as stated. -/
theorem rvEq_hash_counterexample :
    rvEq (.Double ⟨4607182418800017408, "1"⟩)
        (.Double ⟨4607182418800017409, "1.0000000000000002"⟩) = true ∧
    hashBytes (.Double ⟨4607182418800017408, "1"⟩) ≠
      hashBytes (.Double ⟨4607182418800017409, "1.0000000000000002"⟩) := by
  constructor
  · simp only [rvEq]
    decide
  · simp only [hashBytes]
    decide

/-- C8 (amended): `PartialEq`-equal values feed identical byte streams to the
`Hasher` — hence hash equally under every hasher — provided the compared
values contain no `Double` payload (outside `Map` payloads, which never
hash); approximately-equal `Double`s with distinct bit patterns compare
equal but hash differently. -/
theorem rvEq_hash_consistent_double_free (a b : RedisValue)
    (hf : doubleFree a = true) (he : rvEq a b = true) :
    hashBytes a = hashBytes b :=
  hashEq_aux (sizeOf a) a b le_rfl hf he

/-- C8 amended witness: two maps holding the same pairs in different orders
are `PartialEq`-equal and hash identically (both panic, modelled as
`none`). -/
theorem rvEq_hash_consistent_double_free_witness :
    hashBytes (.Map [(⟨[49]⟩, .Null), (⟨[50]⟩, .Queued)]) =
      hashBytes (.Map [(⟨[50]⟩, .Queued), (⟨[49]⟩, .Null)]) :=
  rvEq_hash_consistent_double_free
    (.Map [(⟨[49]⟩, .Null), (⟨[50]⟩, .Queued)])
    (.Map [(⟨[50]⟩, .Queued), (⟨[49]⟩, .Null)])
    (by simp [doubleFree])
    (by simp [rvEq, rvMapSub, mapGet])

/-- Helper: looking up the key just inserted returns the inserted value. -/
theorem mapGet_insert_self (k : RedisKey) (v : RedisValue)
    (m : List (RedisKey × RedisValue)) : mapGet k (mapInsert k v m) = some v := by
  induction m with
  | nil => simp [mapInsert, mapGet]
  | cons p rest ih =>
    by_cases h : p.1 = k
    · simp [mapInsert, mapGet, h]
    · simp [mapInsert, mapGet, h, ih]

/-- Helper: inserting at one key leaves lookups of any other key unchanged. -/
theorem mapGet_insert_ne (k k2 : RedisKey) (v : RedisValue)
    (m : List (RedisKey × RedisValue)) (h : k2 ≠ k) :
    mapGet k2 (mapInsert k v m) = mapGet k2 m := by
  induction m with
  | nil => simp [mapInsert, mapGet, Ne.symm h]
  | cons p rest ih =>
    by_cases hp : p.1 = k
    · simp [mapInsert, mapGet, hp, Ne.symm h]
    · simp [mapInsert, mapGet, hp, ih]

/-- Helper: the pair loop on a reversed even-length chunk followed by one
final (value, key) pair runs the chunk first, then converts the trailing key
and inserts its pair. -/
theorem intoMapRev_append (xs : List RedisValue) (v k : RedisValue)
    (acc : List (RedisKey × RedisValue)) (h : xs.length % 2 = 0) :
    intoMapRev (xs ++ [v, k]) acc =
      match intoMapRev xs acc with
      | .ok m =>
        match redisKey_try_from k with
        | .ok kk => .ok (mapInsert kk v m)
        | .error e => .error e
      | .error e => .error e := by
  match xs with
  | [] =>
    cases htry : redisKey_try_from k <;> simp [intoMapRev, htry]
  | [x] => simp at h
  | x1 :: x2 :: rest =>
    have hr : rest.length % 2 = 0 := by simp [List.length_cons] at h; omega
    show intoMapRev (x1 :: x2 :: (rest ++ [v, k])) acc = _
    cases htry : redisKey_try_from x2 with
    | ok key =>
      simp only [intoMapRev, htry]
      exact intoMapRev_append rest v k (mapInsert key x1 acc) hr
    | error e => simp [intoMapRev, htry]

/-- Helper: over an even-length array the pair loop succeeds exactly when
every key element converts to a `RedisKey`. -/
theorem intoMapRev_isOk (l : List RedisValue) (acc : List (RedisKey × RedisValue))
    (h : l.length % 2 = 0) :
    (intoMapRev l.reverse acc).isOk = pairKeysOk l := by
  match l with
  | [] => rfl
  | [x] => simp at h
  | kv :: v :: rest =>
    have hr : rest.length % 2 = 0 := by simp [List.length_cons] at h; omega
    have hrev : (kv :: v :: rest).reverse = rest.reverse ++ [v, kv] := by
      simp [List.reverse_cons, List.append_assoc]
    have ihr := intoMapRev_isOk rest acc hr
    rw [hrev, intoMapRev_append _ _ _ _ (by simpa using hr)]
    cases hm : intoMapRev rest.reverse acc with
    | ok m =>
      rw [hm] at ihr
      cases hk : redisKey_try_from kv with
      | ok kk => simp [pairKeysOk, hk, ← ihr, Except.isOk, Except.toBool]
      | error e => simp [pairKeysOk, hk, ← ihr, Except.isOk, Except.toBool]
    | error e =>
      rw [hm] at ihr
      simp [pairKeysOk, ← ihr, Except.isOk, Except.toBool]

/-- Helper: on a successful conversion of an even-length array, looking up a
key in the produced map returns the value of the earliest pair whose key
converts to it. -/
theorem intoMapRev_get (l : List RedisValue) (m : List (RedisKey × RedisValue))
    (h : l.length % 2 = 0) (hok : intoMapRev l.reverse [] = .ok m) :
    ∀ key, mapGet key m = listFirstAssoc key l := by
  match l with
  | [] =>
    have hm : m = [] := by
      simpa [intoMapRev] using hok.symm
    subst hm
    intro key
    simp [mapGet, listFirstAssoc]
  | [x] => simp at h
  | kv :: v :: rest =>
    have hr : rest.length % 2 = 0 := by simp [List.length_cons] at h; omega
    have hrev : (kv :: v :: rest).reverse = rest.reverse ++ [v, kv] := by
      simp [List.reverse_cons, List.append_assoc]
    rw [hrev, intoMapRev_append _ _ _ _ (by simpa using hr)] at hok
    cases hm : intoMapRev rest.reverse [] with
    | error e => rw [hm] at hok; dsimp at hok; cases hok
    | ok m' =>
      rw [hm] at hok
      dsimp at hok
      cases hk : redisKey_try_from kv with
      | error e => rw [hk] at hok; dsimp at hok; cases hok
      | ok kk =>
        rw [hk] at hok
        dsimp at hok
        injection hok with hmm
        subst hmm
        intro key
        by_cases hkey : kk = key
        · subst hkey
          simp [listFirstAssoc, hk, mapGet_insert_self]
        · rw [mapGet_insert_ne kk key v m' (Ne.symm hkey)]
          rw [intoMapRev_get rest m' hr hm key]
          simp [listFirstAssoc, hk, hkey]

/-- C9 counterexample: the even-length array `[Array [], Null]` is rejected
by `into_map` (the key element does not convert, `InvalidArgument`),
refuting "succeeds exactly when the value is a Map or an Array of even
length". -/
theorem into_map_even_array_counterexample :
    [RedisValue.Array [], RedisValue.Null].length % 2 = 0 ∧
    RedisValue.into_map false (.Array [.Array [], .Null]) = .error .InvalidArgument := by
  exact ⟨rfl, rfl⟩

/-- C9 (amended): `into_map` succeeds exactly when the value is a `Map`, or
`Null` under the `default-nil-types` feature (yielding the empty map), or an
even-length array whose key elements all convert to keys; an odd-length
array errors; and on a successful array conversion each key — duplicates
included — is bound to the value of its earliest pair. -/
theorem into_map_spec :
    (∀ (dnt : Bool) (v : RedisValue), (RedisValue.into_map dnt v).isOk = true ↔
      ((∃ m, v = .Map m) ∨ (dnt = true ∧ v = .Null) ∨
        (∃ l, v = .Array l ∧ l.length % 2 = 0 ∧ pairKeysOk l = true))) ∧
    (∀ (dnt : Bool) (l : List RedisValue), l.length % 2 ≠ 0 →
      RedisValue.into_map dnt (.Array l) = .error .Unknown) ∧
    RedisValue.into_map true .Null = .ok [] ∧
    (∀ (dnt : Bool) (l : List RedisValue) (m : List (RedisKey × RedisValue)),
      RedisValue.into_map dnt (.Array l) = .ok m →
      ∀ key, mapGet key m = listFirstAssoc key l) := by
  refine ⟨fun dnt v => ?_, fun dnt l h => ?_, rfl, fun dnt l m hok key => ?_⟩
  · cases v with
    | Map m => simp [RedisValue.into_map, Except.isOk, Except.toBool]
    | Null => cases dnt <;> simp [RedisValue.into_map, Except.isOk, Except.toBool]
    | Array l =>
      by_cases hlen : l.length % 2 = 0
      · have hne : ¬ l.length % 2 ≠ 0 := by omega
        rw [show RedisValue.into_map dnt (.Array l) = intoMapRev l.reverse [] by
          simp [RedisValue.into_map, hne]]
        rw [intoMapRev_isOk l [] hlen]
        simp [hlen]
      · simp [RedisValue.into_map, hlen, Except.isOk, Except.toBool]
    | Boolean b => simp [RedisValue.into_map, Except.isOk, Except.toBool]
    | Integer i => simp [RedisValue.into_map, Except.isOk, Except.toBool]
    | Double f => simp [RedisValue.into_map, Except.isOk, Except.toBool]
    | String s => simp [RedisValue.into_map, Except.isOk, Except.toBool]
    | Bytes b => simp [RedisValue.into_map, Except.isOk, Except.toBool]
    | Queued => simp [RedisValue.into_map, Except.isOk, Except.toBool]
  · simp [RedisValue.into_map, h]
  · by_cases hlen : l.length % 2 = 0
    · have hne : ¬ l.length % 2 ≠ 0 := by omega
      rw [show RedisValue.into_map dnt (.Array l) = intoMapRev l.reverse [] by
        simp [RedisValue.into_map, hne]] at hok
      exact intoMapRev_get l m hlen hok key
    · rw [show RedisValue.into_map dnt (.Array l) = .error .Unknown by
        simp [RedisValue.into_map, hlen]] at hok
      cases hok

/-- C9 amended witness: converting the byte-keyed array `[k, 1, k, 2]` keeps
the earliest pair's value for the duplicated key `k`. -/
theorem into_map_spec_witness :
    RedisValue.into_map false (.Array [.Bytes [107], .Integer 1, .Bytes [107], .Integer 2]) =
      .ok [(⟨[107]⟩, .Integer 1)] ∧
    mapGet ⟨[107]⟩ [(⟨[107]⟩, .Integer 1)] =
      listFirstAssoc ⟨[107]⟩ [.Bytes [107], .Integer 1, .Bytes [107], .Integer 2] :=
  ⟨rfl, into_map_spec.2.2.2 false [.Bytes [107], .Integer 1, .Bytes [107], .Integer 2]
    [(⟨[107]⟩, .Integer 1)] rfl ⟨[107]⟩⟩

end Fred
